import Mathlib

/-!
Verification development for the barcade-app time-series reconstruction
engine (`app/main.py`).

Instants are modelled as rational numbers of seconds since the Unix epoch,
interpreted in UTC (the code normalizes naive timestamps to UTC before any
arithmetic).  Python `while` loops stepping a cursor by a fixed positive
step are modelled as maps over `List.range n` where `n` is the exact number
of iterations; Python dicts keyed by bucket starts are modelled as a key
list plus an accumulator function updated with `Function.update`.
-/

namespace Barcade

attribute [local semireducible] Rat.inv Rat.mul Rat.add Rat.sub

/-- Hinnant-style civil-calendar conversion: days since 1970-01-01 of the
calendar date `(y, m, d)`.  Used to model `datetime.replace(day=1)`. -/
def daysFromCivil (y m d : ℤ) : ℤ :=
  let y' : ℤ := if m ≤ 2 then y - 1 else y
  let era : ℤ := Int.fdiv y' 400
  let yoe : ℤ := y' - era * 400
  let mp : ℤ := if 2 < m then m - 3 else m + 9
  let doy : ℤ := Int.fdiv (153 * mp + 2) 5 + d - 1
  let doe : ℤ := yoe * 365 + Int.fdiv yoe 4 - Int.fdiv yoe 100 + doy
  era * 146097 + doe - 719468

/-- Inverse conversion: the calendar date `(y, m, d)` of day number `z`
(days since 1970-01-01). -/
def civilFromDays (z : ℤ) : ℤ × ℤ × ℤ :=
  let z' : ℤ := z + 719468
  let era : ℤ := Int.fdiv z' 146097
  let doe : ℤ := z' - era * 146097
  let yoe : ℤ := Int.fdiv (doe - Int.fdiv doe 1460 + Int.fdiv doe 36524 - Int.fdiv doe 146096) 365
  let y : ℤ := yoe + era * 400
  let doy : ℤ := doe - (365 * yoe + Int.fdiv yoe 4 - Int.fdiv yoe 100)
  let mp : ℤ := Int.fdiv (5 * doy + 2) 153
  let d : ℤ := doy - Int.fdiv (153 * mp + 2) 5 + 1
  let m : ℤ := if mp < 10 then mp + 3 else mp - 9
  (if m ≤ 2 then y + 1 else y, m, d)

/-- The `granularity` parameter of the bucketing utility. -/
inductive Granularity
  | daily
  | weekly
  | monthly
deriving DecidableEq

/-- `dt.replace(hour=0, minute=0, second=0, microsecond=0)`: midnight UTC of
the same calendar day. -/
def dayFloor (t : ℚ) : ℚ := 86400 * ((⌊t / 86400⌋ : ℤ) : ℚ)

/-- `d0 - timedelta(days=d0.weekday())`: midnight UTC of the most recent
Monday.  Day 0 (1970-01-01) was a Thursday, so the weekday of day number `d`
is `(d + 3) % 7` with Monday = 0. -/
def weekFloor (t : ℚ) : ℚ :=
  86400 * (((⌊t / 86400⌋ - (⌊t / 86400⌋ + 3) % 7 : ℤ) : ℚ))

/-- `dt.replace(day=1, hour=0, minute=0, second=0, microsecond=0)`: midnight
UTC of the first day of the same calendar month. -/
def monthFloor (t : ℚ) : ℚ :=
  let c := civilFromDays ⌊t / 86400⌋
  86400 * ((daysFromCivil c.1 c.2.1 1 : ℤ) : ℚ)

/-- `_daterange_floor` from `app/main.py`. -/
def daterange_floor (t : ℚ) : Granularity → ℚ
  | Granularity.daily => dayFloor t
  | Granularity.weekly => weekFloor t
  | Granularity.monthly => monthFloor t

/-- The bucket width used by both the seeding and the distribution loops:
`timedelta(days=1)` / `timedelta(days=7)` / `timedelta(days=30)` in seconds. -/
def stepSec : Granularity → ℚ
  | Granularity.daily => 86400
  | Granularity.weekly => 604800
  | Granularity.monthly => 2592000

/-- Number of iterations of a `while cur < hi: ...; cur += step` loop that
starts at `lo`: the iterates are `lo + k * step` for `k < stepsUntil lo step hi`. -/
def stepsUntil (lo step hi : ℚ) : ℕ := (⌈(hi - lo) / step⌉).toNat

/-- The seeded bucket starts of `build_revenue_series` (`bins` keys): the
cursor starts at `_daterange_floor(start, granularity)` and advances by the
granularity step while it is `< end`. -/
def seedKeys (start end_ : ℚ) (g : Granularity) : List ℚ :=
  (List.range (stepsUntil (daterange_floor start g) (stepSec g) end_)).map
    (fun (k : ℕ) => daterange_floor start g + (k : ℚ) * stepSec g)

/-- One pass of the per-interval bucket-boundary loop: for a clamped
interval `[a, b)`, the pairs `(bin_cursor, seg_end - seg_start)` produced by
`while bin_cursor < b`, where `seg_start = max(a, bin_cursor)` and
`seg_end = min(b, bin_cursor + step)`. -/
def gridSegs (g : Granularity) (a b : ℚ) : List (ℚ × ℚ) :=
  (List.range (stepsUntil (daterange_floor a g) (stepSec g) b)).map
    (fun (k : ℕ) =>
      let c := daterange_floor a g + (k : ℚ) * stepSec g
      (c, min b (c + stepSec g) - max a c))

/-- Python `round(x, 2)`: round half to even at two decimal places
(modelled exactly over ℚ). -/
def rhe (x : ℚ) : ℤ :=
  let f := ⌊x⌋
  let r := x - f
  if r < 1 / 2 then f
  else if 1 / 2 < r then f + 1
  else if f % 2 = 0 then f else f + 1

/-- Round a rational to two decimal places, half to even. -/
def round2 (x : ℚ) : ℚ := ((rhe (100 * x) : ℤ) : ℚ) / 100

/-- `_to_cash` from `app/main.py`. -/
def to_cash (amount : ℚ) (is_token : Bool) (token_value : ℚ) : ℚ :=
  if is_token then amount * token_value else amount

/-- A `RevenueEntry` as consumed by `build_revenue_series`: timestamp,
amount, token flag, and the optional synthetic `_prev_ts` attribute the
route may set on the first entry. -/
structure RevenueEntry where
  timestamp : ℚ
  amount : ℚ
  is_token : Bool
  prev_ts : Option ℚ
deriving DecidableEq

/-- The inner bucket-distribution loop of `build_revenue_series`: for each
produced segment with positive length, compute `bins_key =
_daterange_floor(bin_cursor, granularity)` and, if that key was seeded, add
`amount_cash * (seg_len / denom)` to it. -/
def applyRevSegs (keys : List ℚ) (g : Granularity) (amount_cash denom : ℚ)
    (segs : List (ℚ × ℚ)) (acc : ℚ → ℚ) : ℚ → ℚ :=
  segs.foldl
    (fun f s =>
      if 0 < s.2 then
        if daterange_floor s.1 g ∈ keys then
          Function.update f (daterange_floor s.1 g)
            (f (daterange_floor s.1 g) + amount_cash * (s.2 / denom))
        else f
      else f)
    acc

/-- One iteration of the entry walk of `build_revenue_series`.  The state is
`(prev_time, bins)`; `prev_time = none` models Python's initial `None`, in
which case the previous time is the entry's `_prev_ts` attribute if present,
else the window start.  The interval `[prev_time, e.timestamp)` is clamped
to `[start, end)` and, if non-empty, the entry's cash amount is spread with
denominator `max(total_interval_seconds, 1.0)`. -/
def revStep (start end_ token_value : ℚ) (g : Granularity) (keys : List ℚ)
    (st : Option ℚ × (ℚ → ℚ)) (e : RevenueEntry) : Option ℚ × (ℚ → ℚ) :=
  let prev : ℚ :=
    match st.1 with
    | none => e.prev_ts.getD start
    | some p => p
  let iS := max prev start
  let iE := min e.timestamp end_
  let f' :=
    if iS < iE then
      applyRevSegs keys g (to_cash e.amount e.is_token token_value)
        (max (e.timestamp - prev) 1) (gridSegs g iS iE) st.2
    else st.2
  (some e.timestamp, f')

/-- The accumulated (pre-rounding) bucket contents of `build_revenue_series`. -/
def revenueBins (entries : List RevenueEntry) (start end_ : ℚ) (g : Granularity)
    (token_value : ℚ) : ℚ → ℚ :=
  (entries.foldl (revStep start end_ token_value g (seedKeys start end_ g))
    (none, fun _ => 0)).2

/-- `build_revenue_series` from `app/main.py`: guard `start >= end`, seed the
buckets, walk the entries distributing each cash amount over the elapsed
interval, and emit the buckets sorted by start with amounts rounded to two
decimals.  (The seeded key list is already ascending, so it is its own
sorted enumeration.) -/
def build_revenue_series (entries : List RevenueEntry) (start end_ : ℚ)
    (g : Granularity) (token_value : ℚ) : List (ℚ × ℚ) :=
  if end_ ≤ start then []
  else
    (seedKeys start end_ g).map
      (fun k => (k, round2 (revenueBins entries start end_ g token_value k)))

/-- A game status as stored in `LogEntry.action`
(`GameStatus` in `app/models.py`). -/
inductive Status
  | working
  | needs_maintenance
  | out_of_order
deriving DecidableEq

/-- A status-change `LogEntry` as consumed by `status_series_api`
(timezone handling is modelled separately, see `LogEntryRaw`). -/
structure LogEntry where
  timestamp : ℚ
  action : Status
deriving DecidableEq

/-- The starting status of the window: Python scans the logs in order,
remembering the last entry with `timestamp < start`, and `break`s at the
first entry at or after `start`; with no such entry it defaults to
`working`. -/
def prevStatus (logs : List LogEntry) (start : ℚ) : Status :=
  (((logs.takeWhile (fun e => decide (e.timestamp < start))).map
      (fun e => e.action)).getLastD Status.working)

/-- The in-window filter of the walk: `start_dt <= x.timestamp <= end_dt`. -/
def statusInWindow (start end_ : ℚ) (e : LogEntry) : Bool :=
  decide (start ≤ e.timestamp) && decide (e.timestamp ≤ end_)

/-- Accumulate one downtime segment `[a, b)` into the per-day buckets:
`d` runs over day boundaries from `_floor_day(a)` while `< b`, and
`days[_floor_day(d)] += min(b, d + 1day) - max(a, d)` (in seconds). -/
def addSeg (acc : ℚ → ℚ) (a b : ℚ) : ℚ → ℚ :=
  (gridSegs Granularity.daily a b).foldl
    (fun f s =>
      Function.update f (daterange_floor s.1 Granularity.daily)
        (f (daterange_floor s.1 Granularity.daily) + s.2))
    acc

/-- One iteration of the segment walk of `status_series_api`: the state is
`(cursor, current_status, days)`.  The segment `[cursor, e.timestamp)` is
attributed to the status held before `e`; only `out_of_order` time is
accumulated. -/
def statusStep (st : ℚ × Status × (ℚ → ℚ)) (e : LogEntry) : ℚ × Status × (ℚ → ℚ) :=
  let acc :=
    if st.1 < e.timestamp ∧ st.2.1 = Status.out_of_order then
      addSeg st.2.2 st.1 e.timestamp
    else st.2.2
  (e.timestamp, e.action, acc)

/-- One row of the `daily` output of `status_series_api`. -/
structure DayRow where
  t : ℚ
  uptime_hours : ℚ
  downtime_hours : ℚ
deriving DecidableEq

/-- The `totals` record of `status_series_api`. -/
structure Totals where
  uptime_hours : ℚ
  downtime_hours : ℚ
deriving DecidableEq

/-- The full response of `status_series_api`. -/
structure StatusResult where
  daily : List DayRow
  totals : Totals
deriving DecidableEq

/-- The in-window segment walk of `status_series_api`: starting from
`(start_dt, status at start, empty day buckets)`, process the events with
`start <= timestamp <= end` in list order. -/
def statusWalk (logs : List LogEntry) (start end_ : ℚ) : ℚ × Status × (ℚ → ℚ) :=
  (logs.filter (statusInWindow start end_)).foldl statusStep
    (start, prevStatus logs start, fun _ => 0)

/-- The day buckets after the walk plus the trailing segment
`[cursor, end)` (attributed only when the final status is `out_of_order`). -/
def statusAcc (logs : List LogEntry) (start end_ : ℚ) : ℚ → ℚ :=
  if (statusWalk logs start end_).1 < end_
      ∧ (statusWalk logs start end_).2.1 = Status.out_of_order then
    addSeg (statusWalk logs start end_).2.2 (statusWalk logs start end_).1 end_
  else (statusWalk logs start end_).2.2

/-- The core of `status_series_api` (`app/main.py`, lines 471-557), after
timestamp normalization: guard `start >= end`, find the status at `start`,
seed per-day buckets, walk the in-window events accumulating `out_of_order`
seconds per day, attribute the trailing segment, and report per-day and
total uptime/downtime hours rounded to two decimals.  Per day,
`window_seconds` is the overlap of the day with the window and
`uptime = max(window_seconds - downtime, 0)`; the totals are computed from
the unbucketed window length and the summed day buckets. -/
def status_series (logs : List LogEntry) (start end_ : ℚ) : StatusResult :=
  if end_ ≤ start then ⟨[], ⟨0, 0⟩⟩
  else
    ⟨(seedKeys start end_ Granularity.daily).map
       (fun k =>
         ⟨k,
          round2 (max (max (min (min (k + 86400) end_) end_ - max k start) 0
            - statusAcc logs start end_ k) 0 / 3600),
          round2 (statusAcc logs start end_ k / 3600)⟩),
     ⟨round2 (max ((end_ - start)
          - ((seedKeys start end_ Granularity.daily).map
              (statusAcc logs start end_)).sum) 0 / 3600),
      round2 (((seedKeys start end_ Granularity.daily).map
          (statusAcc logs start end_)).sum / 3600)⟩⟩

/-- A `LogEntry` before timestamp normalization: `aware` records whether the
stored timestamp carries timezone information (the instant itself is the
same either way, naive timestamps being interpreted as UTC). -/
structure LogEntryRaw where
  timestamp : ℚ
  aware : Bool
  action : Status
deriving DecidableEq

/-- The in-place normalization loop of `status_series_api`: every event with
a naive timestamp gets its `timestamp` field overwritten by the equivalent
UTC-aware value (`e.timestamp = e.timestamp.replace(tzinfo=timezone.utc)`). -/
def normalizeLogs (logs : List LogEntryRaw) : List LogEntryRaw :=
  logs.map (fun e => if e.aware then e else { e with aware := true })

/-- `status_series_api` including its timestamp-normalization side effect:
the second component is the state of the event list after the call.  The
`start >= end` guard returns before the normalization loop runs. -/
def status_series_api (logs : List LogEntryRaw) (start end_ : ℚ) :
    StatusResult × List LogEntryRaw :=
  if end_ ≤ start then (⟨[], ⟨0, 0⟩⟩, logs)
  else
    (status_series ((normalizeLogs logs).map (fun e => ⟨e.timestamp, e.action⟩))
      start end_,
     normalizeLogs logs)

/-- The right-hand side of the Mode B conservation property, for in-window
event lists: the sum of the cash-equivalent amounts of the entries whose
accrual interval `[prev, timestamp)` is non-empty (an empty interval
overlaps nothing), where `prev` is the previous entry's timestamp, or
`from_` for the first entry. -/
def overlapCashSumFrom (token_value : ℚ) : List RevenueEntry → ℚ → ℚ
  | [], _ => 0
  | e :: rest, from_ =>
      (if from_ < e.timestamp then to_cash e.amount e.is_token token_value else 0)
        + overlapCashSumFrom token_value rest e.timestamp

/-- The window-overlapping cash total of an in-window entry list, accruing
from the window start. -/
def overlapCashSum (entries : List RevenueEntry) (start token_value : ℚ) : ℚ :=
  overlapCashSumFrom token_value entries start

/-! ### Generic helper lemmas -/

lemma list_range_map_sum (f : ℕ → ℚ) (n : ℕ) :
    ((List.range n).map f).sum = ∑ i ∈ Finset.range n, f i := by
  induction n with
  | zero => simp
  | succ n ih =>
      rw [List.range_succ, Finset.sum_range_succ, List.map_append, List.sum_append]
      simp [ih]

lemma sum_map_update (keys : List ℚ) (f : ℚ → ℚ) (k0 v : ℚ)
    (hnd : keys.Nodup) (hk : k0 ∈ keys) :
    (keys.map (Function.update f k0 (f k0 + v))).sum = (keys.map f).sum + v := by
  induction keys with
  | nil => cases hk
  | cons a l ih =>
      rcases List.mem_cons.mp hk with h | h
      · subst h
        have hnotin : k0 ∉ l := (List.nodup_cons.mp hnd).1
        have hmap : l.map (Function.update f k0 (f k0 + v)) = l.map f := by
          apply List.map_congr_left
          intro x hx
          have hxk : x ≠ k0 := by
            intro hEq
            exact hnotin (hEq ▸ hx)
          exact Function.update_noteq hxk _ _
        simp only [List.map_cons, List.sum_cons, hmap, Function.update_same]
        ring
      · have hnd' : l.Nodup := (List.nodup_cons.mp hnd).2
        have hka : k0 ≠ a := by
          intro hEq
          exact (List.nodup_cons.mp hnd).1 (hEq ▸ h)
        have hhead : Function.update f k0 (f k0 + v) a = f a :=
          Function.update_noteq (Ne.symm hka) _ _
        simp only [List.map_cons, List.sum_cons, hhead, ih hnd' h]
        ring

lemma abs_rhe_sub_le (x : ℚ) : |((rhe x : ℤ) : ℚ) - x| ≤ 1 / 2 := by
  unfold rhe
  have h0 : ((⌊x⌋ : ℤ) : ℚ) ≤ x := Int.floor_le x
  have h1 : x < ((⌊x⌋ : ℤ) : ℚ) + 1 := Int.lt_floor_add_one x
  by_cases hlt : x - ((⌊x⌋ : ℤ) : ℚ) < 1 / 2
  · simp only [hlt, if_true]
    rw [abs_le]
    constructor <;> linarith
  · by_cases hgt : 1 / 2 < x - ((⌊x⌋ : ℤ) : ℚ)
    · simp only [hlt, hgt, if_false, if_true]
      rw [abs_le]
      push_cast
      constructor <;> linarith
    · have heq : x - ((⌊x⌋ : ℤ) : ℚ) = 1 / 2 := le_antisymm (not_lt.mp hgt) (not_lt.mp hlt)
      by_cases hpar : ⌊x⌋ % 2 = 0
      · simp only [hlt, hgt, hpar, if_false, if_true]
        rw [abs_le]
        constructor <;> linarith
      · simp only [hlt, hgt, hpar, if_false]
        rw [abs_le]
        push_cast
        constructor <;> linarith

lemma abs_round2_sub_le (x : ℚ) : |round2 x - x| ≤ 1 / 200 := by
  unfold round2
  have h := abs_rhe_sub_le (100 * x)
  have h100 : (0 : ℚ) < 100 := by norm_num
  calc |((rhe (100 * x) : ℤ) : ℚ) / 100 - x|
      = |(((rhe (100 * x) : ℤ) : ℚ) - 100 * x) / 100| := by ring_nf
    _ = |((rhe (100 * x) : ℤ) : ℚ) - 100 * x| / 100 := by
        rw [abs_div]
        norm_num
    _ ≤ (1 / 2) / 100 := by linarith
    _ = 1 / 200 := by norm_num

lemma round2_zero : round2 0 = 0 := by
  unfold round2 rhe
  norm_num

/-- Iteration count of a `while cur < hi` loop: `lo + k * step < hi` iff
`k < stepsUntil lo step hi`, for a positive step. -/
lemma lt_stepsUntil_iff {lo step hi : ℚ} (hstep : 0 < step) (k : ℕ) :
    k < stepsUntil lo step hi ↔ lo + (k : ℚ) * step < hi := by
  unfold stepsUntil
  rw [Int.lt_toNat, Int.lt_ceil]
  constructor
  · intro h
    have := (lt_div_iff₀ hstep).mp (by exact_mod_cast h)
    linarith
  · intro h
    rw [lt_div_iff₀ hstep]
    push_cast
    linarith

lemma sum_round2_close (l : List ℚ) :
    |(l.map round2).sum - l.sum| ≤ (l.length : ℚ) * (1 / 200) := by
  induction l with
  | nil => simp
  | cons a t ih =>
      simp only [List.map_cons, List.sum_cons, List.length_cons]
      have h1 := abs_round2_sub_le a
      calc |round2 a + (t.map round2).sum - (a + t.sum)|
          = |(round2 a - a) + ((t.map round2).sum - t.sum)| := by ring_nf
        _ ≤ |round2 a - a| + |(t.map round2).sum - t.sum| := abs_add _ _
        _ ≤ 1 / 200 + (t.length : ℚ) * (1 / 200) := add_le_add h1 ih
        _ = ((t.length : ℚ) + 1) * (1 / 200) := by ring
        _ = (((t.length + 1 : ℕ)) : ℚ) * (1 / 200) := by push_cast; ring

/-! ### Floor lemmas for the daily and weekly grids -/

lemma dayFloor_le (t : ℚ) : dayFloor t ≤ t := by
  unfold dayFloor
  have h := Int.floor_le (t / 86400)
  have h2 : (86400 : ℚ) * ((⌊t / 86400⌋ : ℤ) : ℚ) ≤ 86400 * (t / 86400) := by
    apply mul_le_mul_of_nonneg_left h
    norm_num
  calc (86400 : ℚ) * ((⌊t / 86400⌋ : ℤ) : ℚ) ≤ 86400 * (t / 86400) := h2
    _ = t := by ring

lemma lt_dayFloor_add (t : ℚ) : t < dayFloor t + 86400 := by
  unfold dayFloor
  have h := Int.lt_floor_add_one (t / 86400)
  have h2 : 86400 * (t / 86400) < (86400 : ℚ) * (((⌊t / 86400⌋ : ℤ) : ℚ) + 1) := by
    apply mul_lt_mul_of_pos_left h
    norm_num
  have h3 : t = 86400 * (t / 86400) := by ring
  linarith

lemma dayFloor_intMul (n : ℤ) : dayFloor (86400 * (n : ℚ)) = 86400 * (n : ℚ) := by
  unfold dayFloor
  have : (86400 : ℚ) * (n : ℚ) / 86400 = (n : ℚ) := by
    field_simp
  rw [this, Int.floor_intCast]

lemma weekFloor_le (t : ℚ) : weekFloor t ≤ t := by
  unfold weekFloor
  have hmod : 0 ≤ (⌊t / 86400⌋ + 3) % 7 := Int.emod_nonneg _ (by norm_num)
  have h1 : ((⌊t / 86400⌋ - (⌊t / 86400⌋ + 3) % 7 : ℤ) : ℚ) ≤ ((⌊t / 86400⌋ : ℤ) : ℚ) := by
    push_cast
    have : ((((⌊t / 86400⌋ + 3) % 7 : ℤ)) : ℚ) ≥ 0 := by exact_mod_cast hmod
    linarith
  have h2 : (86400 : ℚ) * ((⌊t / 86400⌋ : ℤ) : ℚ) ≤ t := dayFloor_le t
  have h3 : (86400 : ℚ) * ((⌊t / 86400⌋ - (⌊t / 86400⌋ + 3) % 7 : ℤ) : ℚ)
      ≤ 86400 * ((⌊t / 86400⌋ : ℤ) : ℚ) := by
    apply mul_le_mul_of_nonneg_left h1
    norm_num
  linarith

lemma lt_weekFloor_add (t : ℚ) : t < weekFloor t + 604800 := by
  unfold weekFloor
  have hmod : (⌊t / 86400⌋ + 3) % 7 < 7 := Int.emod_lt_of_pos _ (by norm_num)
  have h1 : ((⌊t / 86400⌋ : ℤ) : ℚ) + 1 ≤ ((⌊t / 86400⌋ - (⌊t / 86400⌋ + 3) % 7 : ℤ) : ℚ) + 7 := by
    push_cast
    have : ((((⌊t / 86400⌋ + 3) % 7 : ℤ)) : ℚ) ≤ 6 := by exact_mod_cast Int.lt_add_one_iff.mp hmod
    linarith
  have h2 : t < dayFloor t + 86400 := lt_dayFloor_add t
  unfold dayFloor at h2
  nlinarith

lemma weekFloor_weekMul (n : ℤ) (hn : (n + 3) % 7 = 0) :
    weekFloor (86400 * (n : ℚ)) = 86400 * (n : ℚ) := by
  unfold weekFloor
  have hfl : ⌊(86400 : ℚ) * (n : ℚ) / 86400⌋ = n := by
    have : (86400 : ℚ) * (n : ℚ) / 86400 = (n : ℚ) := by field_simp
    rw [this, Int.floor_intCast]
  rw [hfl, hn]
  push_cast
  ring

/-- The day number of the Monday floor: `weekFloor t = 86400 * weekIdx t`. -/
def weekIdx (t : ℚ) : ℤ := ⌊t / 86400⌋ - (⌊t / 86400⌋ + 3) % 7

lemma weekFloor_eq (t : ℚ) : weekFloor t = 86400 * ((weekIdx t : ℤ) : ℚ) := rfl

lemma weekIdx_mod (t : ℚ) : (weekIdx t + 3) % 7 = 0 := by
  unfold weekIdx
  omega

lemma floorDiv_mono {s t : ℚ} (h : s ≤ t) : ⌊s / 86400⌋ ≤ ⌊t / 86400⌋ := by
  apply Int.floor_le_floor
  have h86 : (0 : ℚ) < 86400 := by norm_num
  exact (div_le_div_iff_of_pos_right h86).mpr h

lemma weekIdx_mono {s t : ℚ} (h : s ≤ t) : weekIdx s ≤ weekIdx t := by
  have hd := floorDiv_mono h
  have hs := weekIdx_mod s
  have ht := weekIdx_mod t
  unfold weekIdx at *
  omega

/-- Generic floor property: the granularity floor is a lower bound
(for the daily and weekly grids). -/
lemma gfloor_le {g : Granularity} (hg : g ≠ Granularity.monthly) (t : ℚ) :
    daterange_floor t g ≤ t := by
  cases g with
  | daily => exact dayFloor_le t
  | weekly => exact weekFloor_le t
  | monthly => exact absurd rfl hg

/-- Generic floor property: `t` lies strictly below its floor plus one step. -/
lemma lt_gfloor_add_step {g : Granularity} (hg : g ≠ Granularity.monthly) (t : ℚ) :
    t < daterange_floor t g + stepSec g := by
  cases g with
  | daily => exact lt_dayFloor_add t
  | weekly => exact lt_weekFloor_add t
  | monthly => exact absurd rfl hg

/-- Generic floor property: grid points (the floor advanced by whole steps)
are fixed by the floor. -/
lemma gfloor_floor_add {g : Granularity} (hg : g ≠ Granularity.monthly) (t : ℚ) (k : ℕ) :
    daterange_floor (daterange_floor t g + (k : ℚ) * stepSec g) g
      = daterange_floor t g + (k : ℚ) * stepSec g := by
  cases g with
  | daily =>
      show dayFloor (dayFloor t + (k : ℚ) * 86400) = dayFloor t + (k : ℚ) * 86400
      have h1 : dayFloor t + (k : ℚ) * 86400 = 86400 * ((⌊t / 86400⌋ + k : ℤ) : ℚ) := by
        unfold dayFloor
        push_cast
        ring
      rw [h1, dayFloor_intMul]
  | weekly =>
      show weekFloor (weekFloor t + (k : ℚ) * 604800) = weekFloor t + (k : ℚ) * 604800
      have h1 : weekFloor t + (k : ℚ) * 604800 = 86400 * ((weekIdx t + 7 * k : ℤ) : ℚ) := by
        rw [weekFloor_eq]
        push_cast
        ring
      have h2 : (weekIdx t + 7 * (k : ℤ) + 3) % 7 = 0 := by
        have := weekIdx_mod t
        omega
      rw [h1, weekFloor_weekMul _ h2]
  | monthly => exact absurd rfl hg

/-- Generic floor property: for `s ≤ t` the floor of `t` is the floor of `s`
advanced by a whole number of steps. -/
lemma gfloor_exists_step {g : Granularity} (hg : g ≠ Granularity.monthly)
    {s t : ℚ} (h : s ≤ t) :
    ∃ j : ℕ, daterange_floor t g = daterange_floor s g + (j : ℚ) * stepSec g := by
  cases g with
  | daily =>
      refine ⟨(⌊t / 86400⌋ - ⌊s / 86400⌋).toNat, ?_⟩
      have hd := floorDiv_mono h
      show dayFloor t = dayFloor s + _ * 86400
      unfold dayFloor
      have htn : ((((⌊t / 86400⌋ - ⌊s / 86400⌋).toNat : ℕ)) : ℚ)
          = ((⌊t / 86400⌋ - ⌊s / 86400⌋ : ℤ) : ℚ) := by
        exact_mod_cast congrArg (fun z : ℤ => (z : ℚ)) (Int.toNat_of_nonneg (by omega))
      rw [htn]
      push_cast
      ring
  | weekly =>
      refine ⟨((weekIdx t - weekIdx s) / 7).toNat, ?_⟩
      have hmono := weekIdx_mono h
      have hs := weekIdx_mod s
      have ht := weekIdx_mod t
      have hdvd : weekIdx t - weekIdx s = 7 * ((weekIdx t - weekIdx s) / 7) := by omega
      show weekFloor t = weekFloor s + _ * 604800
      rw [weekFloor_eq, weekFloor_eq]
      have htn : ((((weekIdx t - weekIdx s) / 7).toNat : ℕ) : ℚ)
          = (((weekIdx t - weekIdx s) / 7 : ℤ) : ℚ) := by
        exact_mod_cast congrArg (fun z : ℤ => (z : ℚ)) (Int.toNat_of_nonneg (by omega))
      rw [htn]
      have : ((weekIdx t : ℤ) : ℚ) = ((weekIdx s : ℤ) : ℚ) + (((weekIdx t - weekIdx s) / 7 : ℤ) : ℚ) * 7 := by
        have : ((weekIdx t - weekIdx s : ℤ) : ℚ) = (((weekIdx t - weekIdx s) / 7 : ℤ) : ℚ) * 7 := by
          exact_mod_cast congrArg (fun z : ℤ => (z : ℚ)) (by omega : weekIdx t - weekIdx s = (weekIdx t - weekIdx s) / 7 * 7)
        push_cast at this
        linarith
      rw [this]
      ring
  | monthly => exact absurd rfl hg

lemma stepSec_pos (g : Granularity) : 0 < stepSec g := by
  cases g <;> norm_num [stepSec]

/-- The clamp function whose successive differences are the segment lengths
of `gridSegs`. -/
def clampAt (g : Granularity) (a b : ℚ) (k : ℕ) : ℚ :=
  min b (max a (daterange_floor a g + (k : ℚ) * stepSec g))

lemma gridSegs_term_eq {g : Granularity} (hg : g ≠ Granularity.monthly)
    {a b : ℚ} (hab : a < b) {k : ℕ}
    (hk : k < stepsUntil (daterange_floor a g) (stepSec g) b) :
    (min b ((daterange_floor a g + (k : ℚ) * stepSec g) + stepSec g)
      - max a (daterange_floor a g + (k : ℚ) * stepSec g))
      = clampAt g a b (k + 1) - clampAt g a b k := by
  have hst := stepSec_pos g
  have hcb : daterange_floor a g + (k : ℚ) * stepSec g < b :=
    (lt_stepsUntil_iff hst k).mp hk
  have hfle : daterange_floor a g ≤ a := gfloor_le hg a
  have hflt : a < daterange_floor a g + stepSec g := lt_gfloor_add_step hg a
  have hcge : daterange_floor a g ≤ daterange_floor a g + (k : ℚ) * stepSec g := by
    have : (0 : ℚ) ≤ (k : ℚ) * stepSec g := by positivity
    linarith
  have h1 : clampAt g a b k = max a (daterange_floor a g + (k : ℚ) * stepSec g) := by
    unfold clampAt
    apply min_eq_right
    apply max_le hab.le hcb.le
  have h2 : clampAt g a b (k + 1)
      = min b ((daterange_floor a g + (k : ℚ) * stepSec g) + stepSec g) := by
    unfold clampAt
    have hle : a ≤ daterange_floor a g + ((k + 1 : ℕ) : ℚ) * stepSec g := by
      have h0 : (0 : ℚ) ≤ (k : ℚ) * stepSec g := by positivity
      push_cast
      linarith
    rw [max_eq_right hle]
    push_cast
    ring_nf
  rw [h1, h2]

lemma gridSegs_sum {g : Granularity} (hg : g ≠ Granularity.monthly)
    {a b : ℚ} (hab : a < b) :
    ((gridSegs g a b).map (fun p => p.2)).sum = b - a := by
  have hst := stepSec_pos g
  unfold gridSegs
  rw [List.map_map, list_range_map_sum]
  have hterm : ∀ k ∈ Finset.range (stepsUntil (daterange_floor a g) (stepSec g) b),
      ((fun p : ℚ × ℚ => p.2) ∘ fun k : ℕ =>
        (daterange_floor a g + (k : ℚ) * stepSec g,
         min b ((daterange_floor a g + (k : ℚ) * stepSec g) + stepSec g)
           - max a (daterange_floor a g + (k : ℚ) * stepSec g))) k
        = clampAt g a b (k + 1) - clampAt g a b k := by
    intro k hk
    exact gridSegs_term_eq hg hab (Finset.mem_range.mp hk)
  rw [Finset.sum_congr rfl hterm, Finset.sum_range_sub (clampAt g a b)]
  have hN : b ≤ daterange_floor a g
      + ((stepsUntil (daterange_floor a g) (stepSec g) b : ℕ) : ℚ) * stepSec g := by
    by_contra hcon
    push_neg at hcon
    exact absurd ((lt_stepsUntil_iff hst _).mpr hcon) (lt_irrefl _)
  have hu0 : clampAt g a b 0 = a := by
    unfold clampAt
    rw [Nat.cast_zero, zero_mul, add_zero, max_eq_left (gfloor_le hg a),
      min_eq_right hab.le]
  have huN : clampAt g a b (stepsUntil (daterange_floor a g) (stepSec g) b) = b := by
    unfold clampAt
    apply min_eq_left
    apply le_max_of_le_right hN
  rw [hu0, huN]

lemma gridSegs_pos {g : Granularity} (hg : g ≠ Granularity.monthly)
    {a b : ℚ} (hab : a < b) :
    ∀ p ∈ gridSegs g a b, 0 < p.2 := by
  intro p hp
  have hst := stepSec_pos g
  unfold gridSegs at hp
  rcases List.mem_map.mp hp with ⟨k, hk, hpk⟩
  have hkN := List.mem_range.mp hk
  have hcb : daterange_floor a g + (k : ℚ) * stepSec g < b :=
    (lt_stepsUntil_iff hst k).mp hkN
  have hflt : a < daterange_floor a g + stepSec g := lt_gfloor_add_step hg a
  have hkc : (0 : ℚ) ≤ (k : ℚ) * stepSec g := by positivity
  subst hpk
  simp only
  have h1 : max a (daterange_floor a g + (k : ℚ) * stepSec g)
      < min b ((daterange_floor a g + (k : ℚ) * stepSec g) + stepSec g) := by
    rw [max_lt_iff, lt_min_iff, lt_min_iff]
    refine ⟨⟨hab, by linarith⟩, hcb, by linarith⟩
  linarith

lemma seedKeys_nodup (s e : ℚ) (g : Granularity) : (seedKeys s e g).Nodup := by
  unfold seedKeys
  apply List.Nodup.map
  · intro x y hxy
    have hst := stepSec_pos g
    have : (x : ℚ) * stepSec g = (y : ℚ) * stepSec g := by linarith [add_left_cancel hxy]
    have : (x : ℚ) = (y : ℚ) := by
      field_simp at this
      rcases this with h | h
      · exact_mod_cast h
      · linarith
    exact_mod_cast this
  · exact List.nodup_range _

lemma seedKeys_mem {s e : ℚ} {g : Granularity} {j : ℕ}
    (hj : daterange_floor s g + (j : ℚ) * stepSec g < e) :
    daterange_floor s g + (j : ℚ) * stepSec g ∈ seedKeys s e g := by
  unfold seedKeys
  apply List.mem_map.mpr
  exact ⟨j, List.mem_range.mpr ((lt_stepsUntil_iff (stepSec_pos g) j).mpr hj), rfl⟩

/-- Every cursor produced by the distribution loop over a clamped in-window
interval is its own `bins_key` and was seeded. -/
lemma gridSegs_key_mem {g : Granularity} (hg : g ≠ Granularity.monthly)
    {s e a b : ℚ} (hsa : s ≤ a) (hbe : b ≤ e) :
    ∀ p ∈ gridSegs g a b,
      daterange_floor p.1 g = p.1 ∧ p.1 ∈ seedKeys s e g := by
  intro p hp
  have hst := stepSec_pos g
  unfold gridSegs at hp
  rcases List.mem_map.mp hp with ⟨k, hk, hpk⟩
  have hkN := List.mem_range.mp hk
  have hcb : daterange_floor a g + (k : ℚ) * stepSec g < b :=
    (lt_stepsUntil_iff hst k).mp hkN
  rcases gfloor_exists_step hg hsa with ⟨j, hj⟩
  have hp1 : p.1 = daterange_floor s g + ((j + k : ℕ) : ℚ) * stepSec g := by
    rw [← hpk]
    simp only
    rw [hj]
    push_cast
    ring
  constructor
  · rw [hp1, gfloor_floor_add hg]
  · rw [hp1]
    apply seedKeys_mem
    rw [← hp1]
    calc p.1 < b := by rw [← hpk]; exact hcb
      _ ≤ e := hbe

/-! ### Sum lemmas for the distribution loops -/

lemma applyRevSegs_sum_general (keys : List ℚ) (g : Granularity)
    (cash denom : ℚ) (segs : List (ℚ × ℚ)) (f : ℚ → ℚ)
    (hnd : keys.Nodup)
    (hmem : ∀ p ∈ segs, 0 < p.2 → daterange_floor p.1 g ∈ keys) :
    (keys.map (applyRevSegs keys g cash denom segs f)).sum
      = (keys.map f).sum
        + (segs.map (fun p => if 0 < p.2 then cash * (p.2 / denom) else 0)).sum := by
  induction segs generalizing f with
  | nil => simp [applyRevSegs]
  | cons p rest ih =>
      have hstep :
          applyRevSegs keys g cash denom (p :: rest) f
            = applyRevSegs keys g cash denom rest
                (if 0 < p.2 then
                  if daterange_floor p.1 g ∈ keys then
                    Function.update f (daterange_floor p.1 g)
                      (f (daterange_floor p.1 g) + cash * (p.2 / denom))
                  else f
                 else f) := by
        unfold applyRevSegs
        rw [List.foldl_cons]
      by_cases hp : 0 < p.2
      · have hkmem := hmem p (List.mem_cons_self p rest) hp
        rw [hstep]
        simp only [hp, hkmem, if_true]
        rw [ih _ (fun q hq => hmem q (List.mem_cons_of_mem p hq))]
        rw [sum_map_update keys f _ _ hnd hkmem]
        simp only [List.map_cons, List.sum_cons, hp, if_true]
        ring
      · rw [hstep]
        simp only [hp, if_false]
        rw [ih _ (fun q hq => hmem q (List.mem_cons_of_mem p hq))]
        simp only [List.map_cons, List.sum_cons, hp, if_false]
        ring

/-- Distributing one clamped in-window interval `[a, b)` adds exactly
`cash * (b - a) / denom` to the seeded buckets in total. -/
lemma applyRevSegs_sum {g : Granularity} (hg : g ≠ Granularity.monthly)
    {s e a b : ℚ} (hsa : s ≤ a) (hab : a < b) (hbe : b ≤ e)
    (cash denom : ℚ) (f : ℚ → ℚ) :
    ((seedKeys s e g).map
        (applyRevSegs (seedKeys s e g) g cash denom (gridSegs g a b) f)).sum
      = ((seedKeys s e g).map f).sum + cash * ((b - a) / denom) := by
  rw [applyRevSegs_sum_general _ _ _ _ _ _ (seedKeys_nodup s e g)
    (fun p hp _ => ((gridSegs_key_mem hg hsa hbe p hp).1).symm ▸
      (gridSegs_key_mem hg hsa hbe p hp).2)]
  have hpos := gridSegs_pos hg hab
  have hcongr : (gridSegs g a b).map
        (fun p => if 0 < p.2 then cash * (p.2 / denom) else 0)
      = (gridSegs g a b).map (fun p => (cash / denom) * p.2) := by
    apply List.map_congr_left
    intro p hp
    rw [if_pos (hpos p hp)]
    ring
  rw [hcongr, List.sum_map_mul_left, gridSegs_sum hg hab]
  ring

/-- Accumulating one downtime segment `[a, b)` over in-window bounds adds
exactly `b - a` seconds to the seeded day buckets in total. -/
lemma addSeg_sum {s e a b : ℚ} (hsa : s ≤ a) (hab : a < b) (hbe : b ≤ e)
    (f : ℚ → ℚ) :
    ((seedKeys s e Granularity.daily).map (addSeg f a b)).sum
      = ((seedKeys s e Granularity.daily).map f).sum + (b - a) := by
  have hg : Granularity.daily ≠ Granularity.monthly := by
    intro h
    cases h
  have hkey := @gridSegs_key_mem Granularity.daily hg s e a b hsa hbe
  have hnd := seedKeys_nodup s e Granularity.daily
  have hgen : ∀ (segs : List (ℚ × ℚ)) (f0 : ℚ → ℚ),
      (∀ p ∈ segs, daterange_floor p.1 Granularity.daily ∈ seedKeys s e Granularity.daily) →
      ((seedKeys s e Granularity.daily).map
          (segs.foldl (fun fc sp =>
            Function.update fc (daterange_floor sp.1 Granularity.daily)
              (fc (daterange_floor sp.1 Granularity.daily) + sp.2)) f0)).sum
        = ((seedKeys s e Granularity.daily).map f0).sum + (segs.map (fun p => p.2)).sum := by
    intro segs
    induction segs with
    | nil => simp
    | cons p rest ih =>
        intro f0 hm
        rw [List.foldl_cons]
        rw [ih _ (fun q hq => hm q (List.mem_cons_of_mem p hq))]
        rw [sum_map_update _ _ _ _ hnd (hm p (List.mem_cons_self p rest))]
        simp only [List.map_cons, List.sum_cons]
        ring
  unfold addSeg
  rw [hgen _ f (fun p hp => ((hkey p hp).1).symm ▸ (hkey p hp).2),
    gridSegs_sum hg hab]

/-- A zero-length (or backwards) accrual interval is skipped: the buckets
are unchanged. -/
lemma revStep_skip {s e tv : ℚ} {g : Granularity} {keys : List ℚ}
    {p : ℚ} {f : ℚ → ℚ} {ev : RevenueEntry}
    (hsp : s ≤ p) (hts : ev.timestamp ≤ p) :
    (revStep s e tv g keys (some p, f) ev).2 = f := by
  unfold revStep
  simp only
  have hiS : max p s = p := max_eq_left hsp
  have : ¬ (max p s < min ev.timestamp e) := by
    rw [hiS]
    intro hlt
    have : min ev.timestamp e ≤ ev.timestamp := min_le_left _ _
    linarith
  rw [if_neg this]

/-- A forward accrual interval that lies inside the window adds exactly
`cash * (t - p) / max (t - p) 1` to the seeded buckets in total. -/
lemma revStep_add {g : Granularity} (hg : g ≠ Granularity.monthly)
    {s e tv : ℚ} {p : ℚ} {f : ℚ → ℚ} {ev : RevenueEntry}
    (hsp : s ≤ p) (hpt : p < ev.timestamp) (hte : ev.timestamp ≤ e) :
    ((seedKeys s e g).map (revStep s e tv g (seedKeys s e g) (some p, f) ev).2).sum
      = ((seedKeys s e g).map f).sum
        + to_cash ev.amount ev.is_token tv
          * ((ev.timestamp - p) / max (ev.timestamp - p) 1) := by
  unfold revStep
  simp only
  have hiS : max p s = p := max_eq_left hsp
  have hiE : min ev.timestamp e = ev.timestamp := min_eq_left hte
  rw [hiS, hiE, if_pos hpt]
  exact applyRevSegs_sum hg hsp hpt hte _ _ f

lemma overlapCashSumFrom_cons (tv : ℚ) (x : RevenueEntry)
    (rest : List RevenueEntry) (p : ℚ) :
    overlapCashSumFrom tv (x :: rest) p
      = (if p < x.timestamp then to_cash x.amount x.is_token tv else 0)
          + overlapCashSumFrom tv rest x.timestamp := rfl

/-- The walk invariant of `build_revenue_series` for in-window entry lists
whose consecutive gaps are zero or at least one second: the bucket totals
accumulate exactly the overlapping cash sum. -/
lemma rev_fold_sum {g : Granularity} (hg : g ≠ Granularity.monthly)
    {s e tv : ℚ} :
    ∀ (l : List RevenueEntry) (p : ℚ) (f : ℚ → ℚ),
      s ≤ p → (∀ x ∈ l, x.timestamp ≤ e) →
      List.Chain (fun a b : ℚ => b = a ∨ a + 1 ≤ b) p
        (l.map (fun x => x.timestamp)) →
      ((seedKeys s e g).map
          ((l.foldl (revStep s e tv g (seedKeys s e g)) (some p, f)).2)).sum
        = ((seedKeys s e g).map f).sum + overlapCashSumFrom tv l p := by
  intro l
  induction l with
  | nil =>
      intro p f _ _ _
      simp [overlapCashSumFrom]
  | cons x t ih =>
      intro p f hsp hin hchain
      rw [List.map_cons, List.chain_cons] at hchain
      obtain ⟨hR, hchain'⟩ := hchain
      rw [List.foldl_cons]
      have hx1 : (revStep s e tv g (seedKeys s e g) (some p, f) x).1
          = some x.timestamp := rfl
      rcases hR with hEq | hGe
      · have hskip : (revStep s e tv g (seedKeys s e g) (some p, f) x).2 = f :=
          revStep_skip hsp (le_of_eq hEq)
        have hpair : revStep s e tv g (seedKeys s e g) (some p, f) x
            = (some x.timestamp, f) := by
          rw [Prod.ext_iff]
          exact ⟨hx1, hskip⟩
        rw [hpair]
        rw [ih x.timestamp f (hEq ▸ hsp) (fun y hy => hin y (List.mem_cons_of_mem x hy)) hchain']
        have hnlt : ¬ (p < x.timestamp) := by
          rw [hEq]
          exact lt_irrefl p
        rw [overlapCashSumFrom_cons, if_neg hnlt]
        ring
      · have hpt : p < x.timestamp := by linarith
        have hte : x.timestamp ≤ e := hin x (List.mem_cons_self x t)
        have hmax : max (x.timestamp - p) 1 = x.timestamp - p :=
          max_eq_left (by linarith)
        have hpair : revStep s e tv g (seedKeys s e g) (some p, f) x
            = (some x.timestamp,
               (revStep s e tv g (seedKeys s e g) (some p, f) x).2) := by
          rw [Prod.ext_iff]
          exact ⟨hx1, rfl⟩
        rw [hpair]
        rw [ih x.timestamp _ (by linarith)
          (fun y hy => hin y (List.mem_cons_of_mem x hy)) hchain']
        rw [revStep_add hg hsp hpt hte]
        have hdiv : (x.timestamp - p) / max (x.timestamp - p) 1 = 1 := by
          rw [hmax]
          apply div_self
          intro hzero
          linarith
        rw [hdiv]
        rw [overlapCashSumFrom_cons, if_pos hpt]
        ring

/-- With no synthetic `_prev_ts` attribute on the first entry, the initial
`prev_time = None` state behaves as `prev_time = start`. -/
lemma revenueBins_eq_fold_some {entries : List RevenueEntry} {s e tv : ℚ}
    {g : Granularity} (hprev : ∀ x ∈ entries, x.prev_ts = none) :
    revenueBins entries s e g tv
      = (entries.foldl (revStep s e tv g (seedKeys s e g))
          (some s, fun _ => 0)).2 := by
  unfold revenueBins
  cases entries with
  | nil => rfl
  | cons x t =>
      rw [List.foldl_cons, List.foldl_cons]
      have hx : x.prev_ts = none := hprev x (List.mem_cons_self x t)
      have hfirst : revStep s e tv g (seedKeys s e g) (none, fun _ => 0) x
          = revStep s e tv g (seedKeys s e g) (some s, fun _ => 0) x := by
        unfold revStep
        rw [hx]
        rfl
      rw [hfirst]

lemma sum_map_zero (l : List ℚ) : (l.map (fun _ => (0 : ℚ))).sum = 0 := by
  induction l with
  | nil => simp
  | cons a t ih => simp [ih]

/-- Invariant of the in-window status walk: starting at cursor `c`, the day
buckets grow by at most the elapsed cursor time (and never shrink), and the
cursor stays within `[c, e]` (and at or above `s`). -/
lemma status_fold_bound {s e : ℚ} :
    ∀ (l : List LogEntry) (c : ℚ) (st : Status) (f : ℚ → ℚ),
      s ≤ c → c ≤ e →
      List.Chain (fun a b : ℚ => a ≤ b) c (l.map (fun x => x.timestamp)) →
      (∀ x ∈ l, x.timestamp ≤ e) →
      (((seedKeys s e Granularity.daily).map (l.foldl statusStep (c, st, f)).2.2).sum
          ≤ ((seedKeys s e Granularity.daily).map f).sum
            + ((l.foldl statusStep (c, st, f)).1 - c))
        ∧ ((seedKeys s e Granularity.daily).map f).sum
            ≤ ((seedKeys s e Granularity.daily).map
                (l.foldl statusStep (c, st, f)).2.2).sum
        ∧ c ≤ (l.foldl statusStep (c, st, f)).1
        ∧ s ≤ (l.foldl statusStep (c, st, f)).1
        ∧ (l.foldl statusStep (c, st, f)).1 ≤ e := by
  intro l
  induction l with
  | nil =>
      intro c st f hsc hce _ _
      refine ⟨by simp, le_refl _, le_refl _, hsc, hce⟩
  | cons x t ih =>
      intro c st f hsc hce hchain hin
      rw [List.map_cons, List.chain_cons] at hchain
      obtain ⟨hcx, hchain'⟩ := hchain
      have hxe : x.timestamp ≤ e := hin x (List.mem_cons_self x t)
      rw [List.foldl_cons]
      have hstep : statusStep (c, st, f) x
          = (x.timestamp, x.action,
             if c < x.timestamp ∧ st = Status.out_of_order then
               addSeg f c x.timestamp
             else f) := rfl
      rw [hstep]
      have hf1 :
          (((seedKeys s e Granularity.daily).map
            (if c < x.timestamp ∧ st = Status.out_of_order then
              addSeg f c x.timestamp else f)).sum
            ≤ ((seedKeys s e Granularity.daily).map f).sum + (x.timestamp - c))
          ∧ ((seedKeys s e Granularity.daily).map f).sum
            ≤ ((seedKeys s e Granularity.daily).map
              (if c < x.timestamp ∧ st = Status.out_of_order then
                addSeg f c x.timestamp else f)).sum := by
        by_cases hcond : c < x.timestamp ∧ st = Status.out_of_order
        · rw [if_pos hcond]
          rw [addSeg_sum hsc hcond.1 hxe f]
          exact ⟨le_refl _, by linarith [hcond.1]⟩
        · rw [if_neg hcond]
          exact ⟨by linarith, le_refl _⟩
      obtain ⟨hup, hdown⟩ := hf1
      have hrec := ih x.timestamp x.action
        (if c < x.timestamp ∧ st = Status.out_of_order then
          addSeg f c x.timestamp else f)
        (le_trans hsc hcx) hxe hchain'
        (fun y hy => hin y (List.mem_cons_of_mem x hy))
      obtain ⟨h1, h2, h3, h4, h5⟩ := hrec
      refine ⟨by linarith, by linarith, by linarith, h4, h5⟩

lemma statusInWindow_iff {s e : ℚ} {x : LogEntry} :
    statusInWindow s e x = true ↔ s ≤ x.timestamp ∧ x.timestamp ≤ e := by
  unfold statusInWindow
  rw [Bool.and_eq_true, decide_eq_true_eq, decide_eq_true_eq]

/-- The summed day buckets lie between `0` and the window length, for an
ascending event list. -/
lemma statusAcc_sum_bound {logs : List LogEntry} {s e : ℚ} (hse : s < e)
    (hsorted : List.Pairwise
      (fun a b : LogEntry => a.timestamp ≤ b.timestamp) logs) :
    0 ≤ ((seedKeys s e Granularity.daily).map (statusAcc logs s e)).sum
      ∧ ((seedKeys s e Granularity.daily).map (statusAcc logs s e)).sum
          ≤ e - s := by
  have hmemP : ∀ x ∈ logs.filter (statusInWindow s e),
      s ≤ x.timestamp ∧ x.timestamp ≤ e := by
    intro x hx
    exact statusInWindow_iff.mp (List.of_mem_filter hx)
  have hpw : List.Pairwise (fun a b : LogEntry => a.timestamp ≤ b.timestamp)
      (logs.filter (statusInWindow s e)) := hsorted.filter _
  have hchain : List.Chain (fun a b : ℚ => a ≤ b) s
      ((logs.filter (statusInWindow s e)).map (fun x => x.timestamp)) := by
    rw [List.chain_iff_pairwise, List.pairwise_cons]
    constructor
    · intro b hb
      rcases List.mem_map.mp hb with ⟨x, hx, hbx⟩
      rw [← hbx]
      exact (hmemP x hx).1
    · exact List.pairwise_map.mpr hpw
  have hbound := @status_fold_bound s e
    (logs.filter (statusInWindow s e)) s (prevStatus logs s) (fun _ => 0)
    (le_refl s) hse.le hchain (fun x hx => (hmemP x hx).2)
  rw [sum_map_zero] at hbound
  obtain ⟨h1, h2, _, h4, h5⟩ := hbound
  have hwalkEq : (logs.filter (statusInWindow s e)).foldl statusStep
      (s, prevStatus logs s, fun _ => 0) = statusWalk logs s e := rfl
  rw [hwalkEq] at h1 h2 h4 h5
  unfold statusAcc
  by_cases hcond : (statusWalk logs s e).1 < e
      ∧ (statusWalk logs s e).2.1 = Status.out_of_order
  · rw [if_pos hcond]
    rw [addSeg_sum h4 hcond.1 (le_refl e)]
    constructor
    · linarith [hcond.1]
    · linarith
  · rw [if_neg hcond]
    constructor
    · linarith
    · linarith

/-- C2, counterexample to the per-bucket form: with window
`[2024-01-01T00:00:07.2Z, 2024-01-02T00:00:28.8Z)` shifted to day numbers
`0` and `1` (start `7.2 s` past midnight, end `28.8 s` past the next
midnight) and two short `out_of_order` episodes of `14.4 s` each — one per
day — every reported figure rounds down to the hundredth, so the per-bucket
sums lose `0.016` hours against the window length, exceeding the claimed
`0.01` tolerance. -/
theorem C2_bucket_sum_counterexample :
    (((status_series
        [⟨43200, Status.out_of_order⟩, ⟨216072/5, Status.working⟩,
         ⟨86405, Status.out_of_order⟩, ⟨432097/5, Status.working⟩]
        (36/5) (432144/5)).daily.map
          (fun r => r.uptime_hours + r.downtime_hours)).sum = 2399/100)
    ∧ ((432144/5 - 36/5) / 3600 : ℚ) = 12003/500
    ∧ ¬ (|(2399/100 : ℚ) - 12003/500| ≤ 1/100) := by
  refine ⟨by decide, by norm_num, by decide⟩

/-- C2 (amended): for every window with `start < end` and every ascending
status-event list, the reported *totals* satisfy
`uptime_hours + downtime_hours = window hours` within `0.01` (the
per-bucket sums conserve the window length exactly before rounding, but
per-bucket rounding can lose up to `0.005` per figure, so the claimed
`0.01` bound holds for the totals, not for the sum of the rounded
per-bucket values). -/
theorem C2_totals_conservation (logs : List LogEntry) (s e : ℚ) (hse : s < e)
    (hsorted : List.Pairwise
      (fun a b : LogEntry => a.timestamp ≤ b.timestamp) logs) :
    |(status_series logs s e).totals.uptime_hours
      + (status_series logs s e).totals.downtime_hours - (e - s) / 3600|
        ≤ 1 / 100 := by
  have hguard : ¬ (e ≤ s) := not_le.mpr hse
  obtain ⟨hD0, hDe⟩ := statusAcc_sum_bound hse hsorted
  simp only [status_series, if_neg hguard]
  have hmax : max ((e - s)
      - ((seedKeys s e Granularity.daily).map (statusAcc logs s e)).sum) 0
      = (e - s)
        - ((seedKeys s e Granularity.daily).map (statusAcc logs s e)).sum :=
    max_eq_left (by linarith)
  rw [hmax]
  have h1 := abs_round2_sub_le (((e - s)
    - ((seedKeys s e Granularity.daily).map (statusAcc logs s e)).sum) / 3600)
  have h2 := abs_round2_sub_le
    (((seedKeys s e Granularity.daily).map (statusAcc logs s e)).sum / 3600)
  rw [abs_le] at h1 h2 ⊢
  constructor
  · have := h1.1
    have := h2.1
    linarith
  · have := h1.2
    have := h2.2
    linarith

/-- Witness for `C2_totals_conservation` at a concrete sorted input. -/
theorem C2_totals_conservation_witness :
    |(status_series [⟨100, Status.out_of_order⟩] 0 86400).totals.uptime_hours
      + (status_series [⟨100, Status.out_of_order⟩] 0 86400).totals.downtime_hours
      - ((86400 : ℚ) - 0) / 3600| ≤ 1 / 100 :=
  C2_totals_conservation [⟨100, Status.out_of_order⟩] 0 86400 (by norm_num)
    (by decide)

/-- C1, counterexample: a single cash-100 event half a second after the
window start.  The elapsed interval is `0.5 s`, the denominator is clamped
to `1.0`, so only `50` of the `100` overlapping cash lands in the buckets —
off by `50`, far beyond the claimed `0.01`. -/
theorem C1_conservation_counterexample :
    (((build_revenue_series [⟨1/2, 100, false, none⟩] 0 86400
        Granularity.daily 1).map (fun p => p.2)).sum = 50)
    ∧ overlapCashSum [⟨1/2, 100, false, none⟩] 0 1 = 100
    ∧ ¬ (|(50 : ℚ) - 100| ≤ 1 / 100) := by
  refine ⟨by decide, by decide, by decide⟩

/-- C1 (amended): for daily or weekly granularity, a window with
`start < end`, and an ascending in-window entry list (no synthetic
`_prev_ts`, every timestamp at most `end`, and each entry either
simultaneous with or at least one second after its predecessor — the first
measured from `start`), the pre-rounding bucket totals of
`build_revenue_series` sum exactly to the cash of the entries whose accrual
interval is non-empty, and the rounded output totals agree with that cash
sum to within `0.005` per bucket. -/
theorem C1_conservation_amended (entries : List RevenueEntry) (s e tv : ℚ)
    (g : Granularity) (hg : g ≠ Granularity.monthly) (hse : s < e)
    (hin : ∀ x ∈ entries, x.timestamp ≤ e)
    (hprev : ∀ x ∈ entries, x.prev_ts = none)
    (hchain : List.Chain (fun a b : ℚ => b = a ∨ a + 1 ≤ b) s
      (entries.map (fun x => x.timestamp))) :
    (((seedKeys s e g).map (revenueBins entries s e g tv)).sum
        = overlapCashSum entries s tv)
      ∧ |((build_revenue_series entries s e g tv).map (fun p => p.2)).sum
          - overlapCashSum entries s tv|
          ≤ ((seedKeys s e g).length : ℚ) * (1 / 200) := by
  have hbins : ((seedKeys s e g).map (revenueBins entries s e g tv)).sum
      = overlapCashSum entries s tv := by
    rw [revenueBins_eq_fold_some hprev]
    rw [rev_fold_sum hg entries s (fun _ => 0) (le_refl s) hin hchain]
    rw [sum_map_zero]
    unfold overlapCashSum
    ring
  refine ⟨hbins, ?_⟩
  have hguard : ¬ (e ≤ s) := not_le.mpr hse
  have hser : build_revenue_series entries s e g tv
      = (seedKeys s e g).map
          (fun k => (k, round2 (revenueBins entries s e g tv k))) := by
    unfold build_revenue_series
    rw [if_neg hguard]
  rw [hser, List.map_map]
  have hcomp : ((fun p : ℚ × ℚ => p.2)
      ∘ fun k => (k, round2 (revenueBins entries s e g tv k)))
      = fun k => round2 (revenueBins entries s e g tv k) := rfl
  rw [hcomp]
  have hmm : (seedKeys s e g).map
      (fun k => round2 (revenueBins entries s e g tv k))
      = ((seedKeys s e g).map (revenueBins entries s e g tv)).map round2 := by
    rw [List.map_map]
    rfl
  rw [hmm, ← hbins]
  have := sum_round2_close ((seedKeys s e g).map (revenueBins entries s e g tv))
  rwa [List.length_map] at this

/-- Witness for `C1_conservation_amended`: one cash-10 entry one hour into a
one-day window. -/
theorem C1_conservation_amended_witness :
    (((seedKeys 0 86400 Granularity.daily).map
        (revenueBins [⟨3600, 10, false, none⟩] 0 86400 Granularity.daily 1)).sum
        = overlapCashSum [⟨3600, 10, false, none⟩] 0 1)
      ∧ |((build_revenue_series [⟨3600, 10, false, none⟩] 0 86400
            Granularity.daily 1).map (fun p => p.2)).sum
          - overlapCashSum [⟨3600, 10, false, none⟩] 0 1|
          ≤ ((seedKeys 0 86400 Granularity.daily).length : ℚ) * (1 / 200) :=
  C1_conservation_amended [⟨3600, 10, false, none⟩] 0 86400 1
    Granularity.daily (by decide) (by decide) (by decide) (by decide)
    (List.Chain.cons (Or.inr (by decide)) List.Chain.nil)

/-- C10, counterexample: under monthly granularity the distribution cursor
is floored to the first of the calendar month, which need not be a seeded
key (seeds advance by 30 days from the month floor of the window start), so
a sub-second event in February of a window starting in January contributes
nothing at all — not `cash * elapsed`. -/
theorem C10_subsecond_counterexample :
    (((build_revenue_series
        [⟨1707091200, 0, false, none⟩, ⟨1707091200 + 1/2, 100, false, none⟩]
        1704067200 1710460800 Granularity.monthly 1).map (fun p => p.2)).sum = 0)
    ∧ to_cash 100 false 1 * ((1707091200 + 1/2) - 1707091200) = 50
    ∧ (0 : ℚ) ≠ 50 := by
  refine ⟨by decide, by decide, by decide⟩

/-- C10 (amended): for daily or weekly granularity, an event whose elapsed
duration since the previous time `p` is strictly between 0 and 1 second
(with the interval inside the window) is distributed with denominator
clamped to `1.0`: the buckets gain exactly `cash * elapsed-seconds` in
total, strictly less than the full cash amount. -/
theorem C10_subsecond_amended (s e p t amt : ℚ) (tok : Bool) (tv : ℚ)
    (g : Granularity) (f : ℚ → ℚ) (hg : g ≠ Granularity.monthly)
    (hsp : s ≤ p) (hpt : p < t) (hte : t ≤ e) (ht1 : t - p < 1)
    (hcash : 0 < to_cash amt tok tv) :
    (((seedKeys s e g).map
        (revStep s e tv g (seedKeys s e g) (some p, f) ⟨t, amt, tok, none⟩).2).sum
      = ((seedKeys s e g).map f).sum + to_cash amt tok tv * (t - p))
    ∧ to_cash amt tok tv * (t - p) < to_cash amt tok tv := by
  have hstep := @revStep_add g hg s e tv p f ⟨t, amt, tok, none⟩ hsp hpt hte
  have hmax : max (t - p) 1 = 1 := max_eq_right (by linarith)
  constructor
  · rw [hstep]
    show ((seedKeys s e g).map f).sum
        + to_cash amt tok tv * ((t - p) / max (t - p) 1)
      = ((seedKeys s e g).map f).sum + to_cash amt tok tv * (t - p)
    rw [hmax, div_one]
  · calc to_cash amt tok tv * (t - p)
        < to_cash amt tok tv * 1 := by
          apply mul_lt_mul_of_pos_left (by linarith) hcash
      _ = to_cash amt tok tv := mul_one _

/-- Witness for `C10_subsecond_amended`: a half-second-gap cash-4 event. -/
theorem C10_subsecond_amended_witness :
    (((seedKeys 0 86400 Granularity.daily).map
        (revStep 0 86400 1 Granularity.daily (seedKeys 0 86400 Granularity.daily)
          (some 10, fun _ => 0) ⟨21/2, 4, false, none⟩).2).sum
      = ((seedKeys 0 86400 Granularity.daily).map (fun _ => (0 : ℚ))).sum
        + to_cash 4 false 1 * (21/2 - 10))
    ∧ to_cash 4 false 1 * (21/2 - 10) < to_cash 4 false 1 :=
  C10_subsecond_amended 0 86400 10 (21/2) 4 false 1 Granularity.daily
    (fun _ => 0) (by decide) (by decide) (by decide) (by decide) (by decide)
    (by decide)

/-- C3, counterexample: for the window starting 2024-01-15T06:00:00Z
(epoch `1705298400`) and ending 2024-02-15T00:00:00Z, the monthly bucket
sequence starts at 2024-01-01T00:00:00Z (epoch `1704067200`) — the first
of the calendar month — not at the day-floor of the window start
(2024-01-15T00:00:00Z, epoch `1705276800`). -/
theorem C3_monthly_start_counterexample :
    seedKeys 1705298400 1707955200 Granularity.monthly
        = [1704067200, 1706659200]
      ∧ dayFloor 1705298400 = 1705276800
      ∧ ¬ ((1704067200 : ℚ) = 1705276800) := by
  refine ⟨by decide, by decide, by decide⟩

/-- C3 (amended): the monthly bucket starts are exactly the fixed 30-day
steps `monthFloor start + k * 2592000` that lie strictly before the window
end, beginning at midnight UTC of the *first day of the calendar month* of
the window start (not at its day-floor). -/
theorem C3_monthly_keys_amended (s e : ℚ) (x : ℚ) :
    x ∈ seedKeys s e Granularity.monthly
      ↔ ∃ k : ℕ, x = monthFloor s + (k : ℚ) * 2592000 ∧ x < e := by
  have hstep : stepSec Granularity.monthly = 2592000 := rfl
  have hfloor : daterange_floor s Granularity.monthly = monthFloor s := rfl
  unfold seedKeys
  rw [hstep, hfloor]
  constructor
  · intro hx
    rcases List.mem_map.mp hx with ⟨k, hk, hxk⟩
    refine ⟨k, hxk.symm, ?_⟩
    rw [← hxk]
    exact (lt_stepsUntil_iff (by norm_num) k).mp (List.mem_range.mp hk)
  · intro hx
    rcases hx with ⟨k, hxk, hxe⟩
    apply List.mem_map.mpr
    refine ⟨k, List.mem_range.mpr ?_, hxk.symm⟩
    apply (lt_stepsUntil_iff (by norm_num) k).mpr
    rw [← hxk]
    exact hxe

/-- C4: evaluation at the failing input.  Two entries share the timestamp
`100`; the second (zero-duration, amount 7) is dropped entirely — the
output bucket holds only the first entry's 5, not 12.  The code's own
comment says the full amount should be put "into the bin of curr_time",
but the `interval_end > interval_start` guard makes that path unreachable. -/
theorem C4_zero_duration_dropped :
    build_revenue_series
        [⟨100, 5, false, none⟩, ⟨100, 7, false, none⟩]
        0 86400 Granularity.daily 1
      = [(0, 5)] := by decide

/-- C5: an empty or inverted window (`start >= end`) makes both
reconstructors return an empty bucket list with zero totals instead of
raising. -/
theorem C5_invalid_window (entries : List RevenueEntry) (logs : List LogEntry)
    (raw : List LogEntryRaw) (s e : ℚ) (g : Granularity) (tv : ℚ)
    (h : e ≤ s) :
    build_revenue_series entries s e g tv = []
      ∧ status_series logs s e = ⟨[], ⟨0, 0⟩⟩
      ∧ (status_series_api raw s e).1 = ⟨[], ⟨0, 0⟩⟩ := by
  refine ⟨?_, ?_, ?_⟩
  · unfold build_revenue_series
    rw [if_pos h]
  · unfold status_series
    rw [if_pos h]
  · unfold status_series_api
    rw [if_pos h]

/-- Witness for `C5_invalid_window` on an inverted window. -/
theorem C5_invalid_window_witness :
    build_revenue_series [] 1 0 Granularity.daily 1 = []
      ∧ status_series [] 1 0 = ⟨[], ⟨0, 0⟩⟩
      ∧ (status_series_api [] 1 0).1 = ⟨[], ⟨0, 0⟩⟩ :=
  C5_invalid_window [] [] [] 1 0 Granularity.daily 1 (by decide)

lemma takeWhile_append_single {p : LogEntry → Bool} {l : List LogEntry}
    {x : LogEntry} (hx : p x = false) :
    (l ++ [x]).takeWhile p = l.takeWhile p := by
  induction l with
  | nil => simp [List.takeWhile_cons, hx]
  | cons a t ih =>
      by_cases ha : p a
      · simp only [List.cons_append, List.takeWhile_cons, ha, if_true, ih]
      · have ha' : p a = false := by
          rwa [Bool.not_eq_true] at ha
        simp [List.takeWhile_cons, ha']

lemma prevStatus_append_end {logs : List LogEntry} {s e : ℚ} {a : Status}
    (hse : s ≤ e) :
    prevStatus (logs ++ [⟨e, a⟩]) s = prevStatus logs s := by
  unfold prevStatus
  rw [takeWhile_append_single]
  exact decide_eq_false (not_lt.mpr hse)

/-- Appending an event timestamped exactly at the window end leaves the day
buckets unchanged: the walk attributes the same trailing segment that the
tail step would attribute, and the trailing step after it is empty. -/
lemma statusAcc_append_end {logs : List LogEntry} {s e : ℚ} {a : Status}
    (hse : s < e) :
    statusAcc (logs ++ [⟨e, a⟩]) s e = statusAcc logs s e := by
  have hin : statusInWindow s e ⟨e, a⟩ = true := by
    rw [statusInWindow_iff]
    exact ⟨hse.le, le_refl e⟩
  have hfilter : (logs ++ [(⟨e, a⟩ : LogEntry)]).filter (statusInWindow s e)
      = logs.filter (statusInWindow s e) ++ [(⟨e, a⟩ : LogEntry)] := by
    rw [List.filter_append]
    simp [hin]
  have hwalk : statusWalk (logs ++ [⟨e, a⟩]) s e
      = statusStep (statusWalk logs s e) ⟨e, a⟩ := by
    unfold statusWalk
    rw [prevStatus_append_end hse.le, hfilter, List.foldl_append]
    rfl
  unfold statusAcc
  rw [hwalk]
  have hne : ¬ ((statusStep (statusWalk logs s e) ⟨e, a⟩).1 < e
      ∧ (statusStep (statusWalk logs s e) ⟨e, a⟩).2.1 = Status.out_of_order) := by
    intro hcon
    exact absurd hcon.1 (lt_irrefl e)
  rw [if_neg hne]
  rfl

/-- C6: an event timestamped exactly at the window end has no effect on any
bucket or total; an event exactly at the window start passes the in-window
filter (and, concretely, a lone `out_of_order` event at the start turns the
whole window into downtime, unlike the empty history). -/
theorem C6_boundary_exactness (logs : List LogEntry) (s e : ℚ) (a : Status)
    (hse : s < e) :
    status_series (logs ++ [⟨e, a⟩]) s e = status_series logs s e
      ∧ statusInWindow s e ⟨s, a⟩ = true
      ∧ (status_series [⟨0, Status.out_of_order⟩] 0 86400).totals.downtime_hours
          = 24
      ∧ (status_series ([] : List LogEntry) 0 86400).totals.downtime_hours
          = 0 := by
  refine ⟨?_, ?_, by decide, by decide⟩
  · unfold status_series
    rw [statusAcc_append_end hse]
  · rw [statusInWindow_iff]
    exact ⟨le_refl s, hse.le⟩

/-- Witness for `C6_boundary_exactness` on a one-day window. -/
theorem C6_boundary_exactness_witness :
    status_series ([⟨100, Status.out_of_order⟩] ++ [⟨86400, Status.working⟩])
        0 86400
      = status_series [⟨100, Status.out_of_order⟩] 0 86400
      ∧ statusInWindow 0 86400 ⟨0, Status.working⟩ = true
      ∧ (status_series [⟨0, Status.out_of_order⟩] 0 86400).totals.downtime_hours
          = 24
      ∧ (status_series ([] : List LogEntry) 0 86400).totals.downtime_hours
          = 0 :=
  C6_boundary_exactness [⟨100, Status.out_of_order⟩] 0 86400 Status.working
    (by decide)

/-- C7: with no status events at all, the unit counts as `working`
throughout: every bucket reports zero downtime, the downtime total is zero,
and the uptime total is the full window length in hours (rounded to two
decimals). -/
theorem C7_zero_event_default (s e : ℚ) (hse : s < e) :
    (∀ r ∈ (status_series [] s e).daily, r.downtime_hours = 0)
      ∧ (status_series [] s e).totals.downtime_hours = 0
      ∧ (status_series [] s e).totals.uptime_hours = round2 ((e - s) / 3600) := by
  have hguard : ¬ (e ≤ s) := not_le.mpr hse
  have hacc : statusAcc [] s e = fun _ => 0 := by
    unfold statusAcc statusWalk prevStatus
    simp only [List.filter_nil, List.takeWhile_nil, List.map_nil,
      List.getLastD_nil, List.foldl_nil]
    rw [if_neg]
    intro hcon
    cases hcon.2
  simp only [status_series, if_neg hguard, hacc]
  refine ⟨?_, ?_, ?_⟩
  · intro r hr
    rcases List.mem_map.mp hr with ⟨k, _, hk⟩
    rw [← hk]
    show round2 (0 / 3600) = 0
    rw [zero_div, round2_zero]
  · show round2 (((seedKeys s e Granularity.daily).map (fun _ => (0 : ℚ))).sum / 3600) = 0
    rw [sum_map_zero, zero_div, round2_zero]
  · show round2 (max ((e - s)
        - ((seedKeys s e Granularity.daily).map (fun _ => (0 : ℚ))).sum) 0 / 3600)
      = round2 ((e - s) / 3600)
    rw [sum_map_zero, sub_zero, max_eq_left (by linarith)]

/-- Witness for `C7_zero_event_default` on a one-day window. -/
theorem C7_zero_event_default_witness :
    (∀ r ∈ (status_series [] 0 86400).daily, r.downtime_hours = 0)
      ∧ (status_series [] 0 86400).totals.downtime_hours = 0
      ∧ (status_series [] 0 86400).totals.uptime_hours
          = round2 (((86400 : ℚ) - 0) / 3600) :=
  C7_zero_event_default 0 86400 (by decide)

/-- C8: the concrete downtime-split scenario — `out_of_order` at
2024-01-01T12:00:00Z, `working` at 2024-01-03T06:00:00Z, window
`[2024-01-01T00:00:00Z, 2024-01-04T00:00:00Z)`, daily granularity — yields
exactly three buckets: 12 h downtime (12 h uptime) on 01-01, 24 h downtime
on 01-02, 6 h downtime and 18 h uptime on 01-03, and no bucket for
01-04. -/
theorem C8_concrete_downtime_split :
    (status_series
        [⟨1704110400, Status.out_of_order⟩, ⟨1704261600, Status.working⟩]
        1704067200 1704326400).daily
      = [⟨1704067200, 12, 12⟩, ⟨1704153600, 0, 24⟩, ⟨1704240000, 18, 6⟩] := by
  decide

/-- C9, counterexample: an event stored with a naive timestamp is mutated
in place — after the call its timestamp field carries UTC timezone
information, so the input list is not unchanged. -/
theorem C9_mutation_counterexample :
    (status_series_api [⟨0, false, Status.working⟩] 0 86400).2
      ≠ [⟨0, false, Status.working⟩] := by decide

/-- C9 (amended): `build_revenue_series` reads its entries without writing
them, and `status_series_api` leaves the event list unchanged whenever
every timestamp is already timezone-aware; naive timestamps, however, are
overwritten in place with their UTC-aware equivalents. -/
theorem C9_no_mutation_amended (raw : List LogEntryRaw) (s e : ℚ)
    (haware : ∀ x ∈ raw, x.aware = true) :
    (status_series_api raw s e).2 = raw := by
  unfold status_series_api
  by_cases h : e ≤ s
  · rw [if_pos h]
  · rw [if_neg h]
    show normalizeLogs raw = raw
    unfold normalizeLogs
    have hmap : raw.map (fun x => if x.aware then x else { x with aware := true })
        = raw.map id := by
      apply List.map_congr_left
      intro x hx
      rw [haware x hx]
      simp
    rw [hmap, List.map_id]

/-- Witness for `C9_no_mutation_amended` with an aware timestamp. -/
theorem C9_no_mutation_amended_witness :
    (status_series_api [⟨5, true, Status.working⟩] 0 10).2
      = [⟨5, true, Status.working⟩] :=
  C9_no_mutation_amended [⟨5, true, Status.working⟩] 0 10 (by decide)

end Barcade
